import Mathlib

/-!
Verification development for the search-engine core of node-tantivy-binding.

The repository ships only the binding's tests, fixtures and examples; the
engine itself is external.  Following the specification (spec.md), the data
model and the operations exercised by the tests are modelled here from the
spec's words, and the properties observed by the test-suite are proved
against that model.
-/

set_option maxRecDepth 100000

namespace TantivyModel

/-- Modelled from the spec: value types a schema field may declare (§3). -/
inductive FieldType where
  | text
  | uintT
  | intT
  | floatT
  | boolT
  | dateT
  | facetT
  | bytesT
  | ipAddrT
  | jsonT
deriving DecidableEq, Repr

/-- Modelled from the spec: a schema entry is a field name, a value type and
per-field options `stored`, `indexed`, `fast` (§3). -/
structure FieldDef where
  name : String
  ftype : FieldType
  stored : Bool
  indexed : Bool
  fast : Bool
deriving DecidableEq, Repr

/-- Modelled from the spec: a schema is an ordered list of field entries. -/
abbrev Schema := List FieldDef

/-- Modelled from the spec: a JSON object value as ingested for a json field. -/
inductive JsonVal where
  | jnull
  | jbool (b : Bool)
  | jnum (q : Rat)
  | jstr (s : String)
  | jarr (xs : List JsonVal)
  | jobj (fs : List (String × JsonVal))

/-- Modelled from the spec: a typed field value (§3).  Numeric values are
rationals (the observable order of the order-preserving encodings), dates are
nanosecond timestamps, IP addresses are the normalized 128-bit form. -/
inductive Value where
  | text (s : String)
  | uint (n : Nat)
  | intV (i : Int)
  | float (q : Rat)
  | boolV (b : Bool)
  | date (n : Int)
  | ip (n : Nat)
  | json (j : JsonVal)

/-- Modelled from the spec: a document is an ordered multimap from field name
to typed values (§3). -/
abbrev Doc := List (String × Value)

/-- Find the schema entry for a field name. -/
def lookupField (sch : Schema) (f : String) : Option FieldDef :=
  sch.find? (fun fd => fd.name == f)

/-- Whether the named field is marked stored. -/
def fieldStored (sch : Schema) (f : String) : Bool :=
  match lookupField sch f with
  | some fd => fd.stored
  | none => false

/-- Whether the named field is marked indexed. -/
def fieldIndexed (sch : Schema) (f : String) : Bool :=
  match lookupField sch f with
  | some fd => fd.indexed
  | none => false

/-- Character class of the simple tokenizer: alphanumeric runs (§4.1). -/
def isTokenChar (c : Char) : Bool := c.isAlphanum

/-- Accumulating worker for the simple tokenizer: split into alphanumeric
runs, case-folded. -/
def tokenizeAux : List Char → List Char → List (List Char)
  | [], cur => if cur.isEmpty then [] else [cur.reverse]
  | c :: cs, cur =>
    if isTokenChar c then tokenizeAux cs (c.toLower :: cur)
    else if cur.isEmpty then tokenizeAux cs []
    else cur.reverse :: tokenizeAux cs []

/-- Modelled from the spec: the default simple tokenizer — alphanumeric run
splitting, case-folding (§4.1). -/
def tokenize (s : String) : List String :=
  (tokenizeAux s.data []).map (fun l => String.mk l)

/-- Numeric view of a value, when it has one. -/
def numValue : Value → Option Rat
  | .uint n => some (n : Rat)
  | .intV i => some (i : Rat)
  | .float q => some q
  | _ => none

/-- IP view of a value, when it has one. -/
def ipValue : Value → Option Nat
  | .ip n => some n
  | _ => none

/-- All values a document holds for one field, in order. -/
def fieldValues (d : Doc) (f : String) : List Value :=
  d.filterMap (fun p => if p.1 == f then some p.2 else none)

/-- Lower-bound test of a numeric range with the given inclusiveness. -/
def lowerOk (lo : Rat) (incl : Bool) (q : Rat) : Bool :=
  if incl then decide (lo ≤ q) else decide (lo < q)

/-- Upper-bound test of a numeric range with the given inclusiveness. -/
def upperOk (hi : Rat) (incl : Bool) (q : Rat) : Bool :=
  if incl then decide (q ≤ hi) else decide (q < hi)

/-- Lower-bound test of an IP range with the given inclusiveness. -/
def lowerOkNat (lo : Nat) (incl : Bool) (n : Nat) : Bool :=
  if incl then decide (lo ≤ n) else decide (lo < n)

/-- Upper-bound test of an IP range with the given inclusiveness. -/
def upperOkNat (hi : Nat) (incl : Bool) (n : Nat) : Bool :=
  if incl then decide (n ≤ hi) else decide (n < hi)

/-- Modelled from the spec: the query AST restricted to the kinds the claims
exercise — term, Should-disjunction, numeric range, IP range, match-all
(§4.6). -/
inductive QueryAst where
  | termQ (field : String) (t : String)
  | orQ (a b : QueryAst)
  | rangeNumQ (field : String) (lo hi : Rat) (loIncl hiIncl : Bool)
  | rangeIpQ (field : String) (lo hi : Nat) (loIncl hiIncl : Bool)
  | allQ
deriving Repr

/-- Modelled from the spec: whether a document matches a query; a term query
matches when some indexed value of its field tokenizes to a list containing
the term (§4.5, §4.6). -/
def matchesQ (sch : Schema) : QueryAst → Doc → Bool
  | .termQ f t, d =>
    fieldIndexed sch f &&
      (fieldValues d f).any (fun v =>
        match v with
        | .text s => (tokenize s).contains t
        | _ => false)
  | .orQ a b, d => matchesQ sch a d || matchesQ sch b d
  | .rangeNumQ f lo hi li ui, d =>
    fieldIndexed sch f &&
      (fieldValues d f).any (fun v =>
        match numValue v with
        | some q => lowerOk lo li q && upperOk hi ui q
        | none => false)
  | .rangeIpQ f lo hi li ui, d =>
    fieldIndexed sch f &&
      (fieldValues d f).any (fun v =>
        match ipValue v with
        | some n => lowerOkNat lo li n && upperOkNat hi ui n
        | none => false)
  | .allQ, _ => true

/-- Modelled from the spec: one entry of a sealed segment — the indexed part
(postings side), the stored part (document store) and the deletion bit (§3). -/
structure SegEntry where
  indexedDoc : Doc
  storedDoc : Doc
  deleted : Bool

/-- A sealed segment: a dense doc-id range of entries. -/
abbrev Segment := List SegEntry

/-- The stored-field subset of a document. -/
def storedSub (sch : Schema) (d : Doc) : Doc :=
  d.filter (fun p => fieldStored sch p.1)

/-- The indexed-field subset of a document. -/
def indexedSub (sch : Schema) (d : Doc) : Doc :=
  d.filter (fun p => fieldIndexed sch p.1)

/-- Modelled from the spec: serializing one ingested document into a segment
entry — postings from indexed fields, store from stored fields, no deletion
(§4.2). -/
def mkSegEntry (sch : Schema) (d : Doc) : SegEntry :=
  ⟨indexedSub sch d, storedSub sch d, false⟩

/-- Flush a buffered batch of documents into one sealed segment (§4.2). -/
def mkSegment (sch : Schema) (ds : List Doc) : Segment :=
  ds.map (mkSegEntry sch)

/-- Modelled from the spec: an index is the schema plus the committed
segments (§3). -/
structure IndexState where
  sch : Schema
  segments : List Segment

/-- Whether a segment entry is live (not deleted) and matches the query. -/
def entryLiveMatches (sch : Schema) (q : QueryAst) (e : SegEntry) : Bool :=
  !e.deleted && matchesQ sch q e.indexedDoc

/-- Number of live matching documents inside one segment. -/
def segCount (sch : Schema) (q : QueryAst) (seg : Segment) : Nat :=
  (seg.filter (entryLiveMatches sch q)).length

/-- Modelled from the spec: the result count of a search is the number of
live matching documents summed over every live segment (§4.5). -/
def searchCount (idx : IndexState) (q : QueryAst) : Nat :=
  (idx.segments.map (segCount idx.sch q)).sum

/-- Addresses of the live matching documents inside one segment. -/
def segHits (sch : Schema) (q : QueryAst) (segOrd : Nat) (seg : Segment) :
    List (Nat × Nat) :=
  seg.enum.filterMap (fun p =>
    if entryLiveMatches sch q p.2 then some (segOrd, p.1) else none)

/-- Modelled from the spec: the doc addresses returned by a search, per
segment in order (§4.5). -/
def searchHits (idx : IndexState) (q : QueryAst) : List (Nat × Nat) :=
  (idx.segments.enum.map (fun p => segHits idx.sch q p.1 p.2)).flatten

/-- Modelled from the spec: resolve a doc address back to the stored-field
representation (§4.5). -/
def searcherDoc (idx : IndexState) (addr : Nat × Nat) : Option Doc :=
  (idx.segments.get? addr.1).bind (fun seg => (seg.get? addr.2).map (·.storedDoc))

/-- Modelled from the spec: committing a buffered batch appends one new
sealed segment (§4.3). -/
def commitDocs (idx : IndexState) (ds : List Doc) : IndexState :=
  { idx with segments := idx.segments ++ [mkSegment idx.sch ds] }

/-- Modelled from the spec: a full background merge combines all segments
into one, dropping deleted entries (§4.3). -/
def mergeAllSegments (idx : IndexState) : IndexState :=
  { idx with segments := [idx.segments.flatten.filter (fun e => !e.deleted)] }

/-- Modelled from the spec: the index writer handle — buffered documents,
committed batches, and the explicit consumed flag checked at the top of every
writer operation (§4.3, §9 design note on the one-shot consuming
`waitMergingThreads`). -/
structure WriterModel where
  buffered : List Doc
  committed : List (List Doc)
  consumed : Bool

/-- Modelled from the spec: the distinct error kind for using a writer handle
past its valid lifetime (§7 (d)). -/
def writerUnusableMsg : String := "writer no longer usable"

/-- The operations available on a writer handle (§4.3). -/
inductive WriterOp where
  | addDoc (d : Doc)
  | commitOp
  | waitMerging
  | deleteAllDocs

/-- Modelled from the spec: one writer operation; every operation first
checks the consumed flag and fails with the stale-handle error once the
writer was consumed; `waitMerging` drains merges and then consumes the
writer (§4.3, §9). -/
def writerStep (op : WriterOp) (w : WriterModel) : Except String WriterModel :=
  if w.consumed then .error writerUnusableMsg
  else
    match op with
    | .addDoc d => .ok { w with buffered := w.buffered ++ [d] }
    | .commitOp => .ok { w with buffered := [], committed := w.committed ++ [w.buffered] }
    | .waitMerging => .ok { w with consumed := true }
    | .deleteAllDocs => .ok { w with buffered := [] }

/-- Modelled from the spec: `waitMergingThreads` as the dedicated entry point
(§4.3). -/
def waitMergingThreads (w : WriterModel) : Except String WriterModel :=
  writerStep .waitMerging w

/-- A freshly created writer. -/
def freshWriter : WriterModel := ⟨[], [], false⟩

/-- Requested order direction of a field-ordered search. -/
inductive OrderDir where
  | asc
  | desc
deriving DecidableEq

/-- Modelled from the spec: the configuration-error message produced when a
search orders by a field that is not declared fast (§4.5, §7 (a)); the text
is the one the test-suite matches against. -/
def fastFieldErrMsg (f : String) : String :=
  "Field \"" ++ f ++ "\" is not configured as fast field"

/-- First numeric fast value the addressed document holds for a field, used
as the sort key; documents without one sort with key 0. -/
def fastKey (idx : IndexState) (f : String) (addr : Nat × Nat) : Rat :=
  match (idx.segments.get? addr.1).bind (fun seg => seg.get? addr.2) with
  | some e =>
    match (fieldValues e.indexedDoc f).filterMap numValue with
    | q :: _ => q
    | [] => 0
  | none => 0

/-- Insert into a list sorted by the given Boolean order. -/
def insertBy (le : α → α → Bool) (x : α) : List α → List α
  | [] => [x]
  | y :: ys => if le x y then x :: y :: ys else y :: insertBy le x ys

/-- Insertion sort by the given Boolean order. -/
def sortBy (le : α → α → Bool) : List α → List α
  | [] => []
  | x :: xs => insertBy le x (sortBy le xs)

/-- Comparison used when ordering hits by a fast field. -/
def keyLe (idx : IndexState) (f : String) (dir : OrderDir)
    (a b : Nat × Nat) : Bool :=
  match dir with
  | .asc => decide (fastKey idx f a ≤ fastKey idx f b)
  | .desc => decide (fastKey idx f b ≤ fastKey idx f a)

/-- Modelled from the spec: `search` with optional field-based ordering —
ordering by a field that exists but is not marked fast (or does not exist)
is a synchronous configuration error naming the field, never a silent empty
result (§4.5, §7 (a)). -/
def searchOrdered (idx : IndexState) (q : QueryAst) (limit : Nat)
    (useOrder : Bool) (orderField : Option String) (dir : OrderDir) :
    Except String (List (Nat × Nat)) :=
  if useOrder then
    match orderField with
    | some f =>
      match lookupField idx.sch f with
      | some fd =>
        if fd.fast then
          .ok ((sortBy (keyLe idx f dir) (searchHits idx q)).take limit)
        else .error (fastFieldErrMsg f)
      | none => .error (fastFieldErrMsg f)
    | none => .ok ((searchHits idx q).take limit)
  else .ok ((searchHits idx q).take limit)

/-- Split a character list at every occurrence of a separator character. -/
def splitOnChar (sep : Char) : List Char → List (List Char)
  | [] => [[]]
  | c :: cs =>
    match splitOnChar sep cs with
    | [] => [[]]
    | r :: rs => if c = sep then [] :: r :: rs else (c :: r) :: rs

/-- Split a clause at its first colon into field name and literal, when a
colon is present. -/
def splitAtColon : List Char → Option (List Char × List Char)
  | [] => none
  | c :: cs =>
    if c = ':' then some ([], cs)
    else
      match splitAtColon cs with
      | some p => some (c :: p.1, p.2)
      | none => none

/-- Accumulator for decimal literals. -/
def parseNatDigitsAux : List Char → Nat → Option Nat
  | [], acc => some acc
  | c :: cs, acc =>
    if c.isDigit then parseNatDigitsAux cs (acc * 10 + (c.toNat - 48)) else none

/-- Parse a non-empty all-digit decimal literal. -/
def parseNatDigits (l : List Char) : Option Nat :=
  if l.isEmpty then none else parseNatDigitsAux l 0

/-- Parse a signed integer literal. -/
def parseIntLit : List Char → Option Int
  | '-' :: rest => (parseNatDigits rest).map (fun n => -(n : Int))
  | l => (parseNatDigits l).map (fun n => (n : Int))

/-- Parse a decimal literal with an optional fractional part. -/
def parseRatLit (l : List Char) : Option Rat :=
  match splitOnChar '.' l with
  | [whole] => (parseIntLit whole).map (fun i => (i : Rat))
  | [whole, frac] =>
    match parseIntLit whole, parseNatDigits frac with
    | some i, some n =>
      let den : Nat := 10 ^ frac.length
      some (mkRat (if i < 0 then i * den - n else i * den + n) den)
    | _, _ => none
  | _ => none

/-- The single-quote character of quoted query literals. -/
def quoteCh : Char := Char.ofNat 39

/-- Whether a literal is written as a quoted string. -/
def isQuoted (l : List Char) : Bool :=
  match l with
  | c :: _ => c == quoteCh
  | [] => false

/-- Strip quote characters from a literal. -/
def unquote (l : List Char) : List Char :=
  l.filter (fun c => c != quoteCh)

/-- Modelled from the spec: the clauses of a parsed query tree, as far as the
claims exercise them (§4.6). -/
inductive ParsedClause where
  | textTerm (field : String) (t : String)
  | numTerm (field : String) (q : Rat)
  | numLess (field : String) (q : Rat)
  | numGreater (field : String) (q : Rat)
  | boolTerm (field : String) (b : Bool)
deriving DecidableEq, Repr

/-- Modelled from the spec: the human-readable error recorded by the lenient
parser for a clause naming an unknown field (§4.6, §7 (b)). -/
def unknownFieldMsg (f : String) : String :=
  "Field does not exist: \"" ++ f ++ "\""

/-- Modelled from the spec: the human-readable error recorded by the lenient
parser for a literal that does not fit the field type (§4.6, §7 (b)). -/
def invalidLiteralMsg (f : String) : String :=
  "Invalid literal for field \"" ++ f ++ "\""

/-- Relational marker in front of a numeric literal. -/
inductive RelOp where
  | eqR
  | ltR
  | gtR
deriving DecidableEq

/-- Strip a leading relational marker from a literal. -/
def stripRel : List Char → RelOp × List Char
  | '<' :: r => (.ltR, r)
  | '>' :: r => (.gtR, r)
  | l => (.eqR, l)

/-- Build the numeric clause selected by a relational marker. -/
def numClause (rel : RelOp) (f : String) (q : Rat) : ParsedClause :=
  match rel with
  | .eqR => .numTerm f q
  | .ltR => .numLess f q
  | .gtR => .numGreater f q

/-- Modelled from the spec: parse one clause — unknown fields and literals of
the wrong kind for the field type are per-clause errors (§4.6, §7 (b)). -/
def parseClause (sch : Schema) (cl : List Char) : Except String ParsedClause :=
  match splitAtColon cl with
  | none => .ok (.textTerm "" (String.mk (unquote cl)))
  | some (fname, rest) =>
    let f := String.mk fname
    match lookupField sch f with
    | none => .error (unknownFieldMsg f)
    | some fd =>
      match fd.ftype with
      | .text => .ok (.textTerm f (String.mk (unquote rest)))
      | .intT =>
        let (rel, r) := stripRel rest
        match parseIntLit r with
        | some i => .ok (numClause rel f (i : Rat))
        | none => .error (invalidLiteralMsg f)
      | .uintT =>
        let (rel, r) := stripRel rest
        match parseNatDigits r with
        | some n => .ok (numClause rel f (n : Rat))
        | none => .error (invalidLiteralMsg f)
      | .floatT =>
        let (rel, r) := stripRel rest
        if isQuoted r then .error (invalidLiteralMsg f)
        else
          match parseRatLit r with
          | some q => .ok (numClause rel f q)
          | none => .error (invalidLiteralMsg f)
      | .boolT =>
        if unquote rest == "true".data then .ok (.boolTerm f true)
        else if unquote rest == "false".data then .ok (.boolTerm f false)
        else .error (invalidLiteralMsg f)
      | _ => .ok (.textTerm f (String.mk (unquote rest)))

/-- Split a query string into clause tokens, dropping the AND and OR
connectors. -/
def clauseTokens (s : String) : List (List Char) :=
  (splitOnChar ' ' s.data).filter
    (fun t => !(t.isEmpty || t == "AND".data || t == "OR".data))

/-- Collect the clauses of the successfully parsed side. -/
def okClauses (rs : List (Except String ParsedClause)) : List ParsedClause :=
  rs.filterMap (fun r =>
    match r with
    | .ok c => some c
    | .error _ => none)

/-- Collect the error messages of the failed side. -/
def errClauses (rs : List (Except String ParsedClause)) : List String :=
  rs.filterMap (fun r =>
    match r with
    | .ok _ => none
    | .error m => some m)

/-- Modelled from the spec: the lenient parse mode — a total function that
returns a best-effort partial query tree together with a list of
human-readable error strings, one per independently failing clause; it never
throws (§4.6, §7 (b), §8). -/
def parseQueryLenient (sch : Schema) (s : String) :
    List ParsedClause × List String :=
  let rs := (clauseTokens s).map (parseClause sch)
  (okClauses rs, errClauses rs)

/-- Boolean test that a character list starts with the first argument. -/
def startsWithL : List Char → List Char → Bool
  | [], _ => true
  | _ :: _, [] => false
  | p :: ps, c :: cs => p == c && startsWithL ps cs

/-- Boolean substring test on character lists. -/
def containsSub (p : List Char) : List Char → Bool
  | [] => p.isEmpty
  | c :: cs => startsWithL p (c :: cs) || containsSub p cs

/-- Boolean substring test on strings. -/
def strContainsSub (needle hay : String) : Bool :=
  containsSub needle.data hay.data

/-- Modelled from the spec: the byte separating encoded facet path segments
(§3). -/
def facetSep : Char := Char.ofNat 0

/-- Modelled from the spec: a facet is a hierarchical `/`-delimited path,
held as its list of path segments (§3). -/
structure Facet where
  segs : List (List Char)

/-- Encode a list of path segments: every segment followed by the
separator. -/
def facetEncodeL (segs : List (List Char)) : List Char :=
  segs.foldr (fun s acc => s ++ facetSep :: acc) []

/-- Modelled from the spec: the specially-encoded term of a facet whose
prefix relation corresponds to path containment (§3). -/
def facetEncode (f : Facet) : List Char :=
  facetEncodeL f.segs

/-- Build a facet from its `/`-delimited textual form. -/
def facetFromString (s : String) : Facet :=
  ⟨(splitOnChar '/' s.data).filter (fun t => !t.isEmpty)⟩

/-- Modelled from the spec: facet containment is decided on the encoded
terms — A is a prefix of B when A's encoded term is a proper prefix of B's
(§3, §4.7). -/
def facetIsPrefixOf (a b : Facet) : Bool :=
  startsWithL (facetEncode a) (facetEncode b) &&
    decide ((facetEncode a).length < (facetEncode b).length)

/-- Path-level ancestry: B's path extends A's path by at least one
segment. -/
def facetAncestor (a b : Facet) : Prop :=
  ∃ t, t ≠ [] ∧ b.segs = a.segs ++ t

/-- A well-formed facet has no separator byte inside a path segment. -/
def facetWellFormed (f : Facet) : Prop :=
  ∀ s ∈ f.segs, facetSep ∉ s

/-- The root facet. -/
def facetRoot : Facet := ⟨[]⟩

/-- Modelled from the spec: IPv4 addresses are normalized into the
IPv6-mapped 128-bit space (§3, §4.2). -/
def ipv4Mapped (n : Nat) : Nat := 0xffff * 2 ^ 32 + n

/-- Parse one dotted-quad component, rejecting values above 255. -/
def parseDecByte (l : List Char) : Option Nat :=
  match parseNatDigits l with
  | some n => if n ≤ 255 then some n else none
  | none => none

/-- Parse a dotted-quad IPv4 literal into the normalized 128-bit form. -/
def parseIpv4 (l : List Char) : Option Nat :=
  match splitOnChar '.' l with
  | [a, b, c, d] =>
    match parseDecByte a, parseDecByte b, parseDecByte c, parseDecByte d with
    | some a', some b', some c', some d' =>
      some (ipv4Mapped (a' * 2 ^ 24 + b' * 2 ^ 16 + c' * 2 ^ 8 + d'))
    | _, _, _, _ => none
  | _ => none

/-- Value of one hexadecimal digit. -/
def hexDigitVal (c : Char) : Option Nat :=
  if c.isDigit then some (c.toNat - 48)
  else if 97 ≤ c.toNat ∧ c.toNat ≤ 102 then some (c.toNat - 87)
  else if 65 ≤ c.toNat ∧ c.toNat ≤ 70 then some (c.toNat - 55)
  else none

/-- Accumulator for hexadecimal groups. -/
def parseHexGroupAux : List Char → Nat → Option Nat
  | [], acc => some acc
  | c :: cs, acc =>
    match hexDigitVal c with
    | some v => parseHexGroupAux cs (acc * 16 + v)
    | none => none

/-- Parse one non-empty 16-bit hexadecimal group. -/
def parseHexGroup (l : List Char) : Option Nat :=
  if l.isEmpty then none
  else
    match parseHexGroupAux l 0 with
    | some n => if n < 2 ^ 16 then some n else none
    | none => none

/-- Fold hexadecimal groups into a 128-bit value. -/
def foldHexGroups (gs : List (List Char)) : Option Nat :=
  gs.foldl
    (fun acc g =>
      match acc, parseHexGroup g with
      | some a, some v => some (a * 2 ^ 16 + v)
      | _, _ => none)
    (some 0)

/-- Modelled from the spec: parse an IP literal — dotted-quad IPv4 is
normalized into the IPv6-mapped space, and the abbreviated
leading-double-colon IPv6 form covers the addresses the tests use (§3). -/
def parseIpText (s : String) : Option Nat :=
  if s.data.contains '.' then parseIpv4 s.data
  else
    match s.data with
    | ':' :: ':' :: rest =>
      foldHexGroups ((splitOnChar ':' rest).filter (fun g => !g.isEmpty))
    | l =>
      match splitOnChar ':' l with
      | gs => if gs.length = 8 then foldHexGroups gs else none

/-- Render the dotted-quad form of the low 32 bits. -/
def formatIpv4 (n : Nat) : String :=
  toString (n / 2 ^ 24 % 256) ++ "." ++ toString (n / 2 ^ 16 % 256) ++ "." ++
    toString (n / 2 ^ 8 % 256) ++ "." ++ toString (n % 256)

/-- Whether a 128-bit value lies in the IPv4-mapped window. -/
def isIpv4Mapped (n : Nat) : Bool :=
  decide (0xffff * 2 ^ 32 ≤ n ∧ n < 0x10000 * 2 ^ 32)

/-- Modelled from the spec: the textual form the binding returns for a
stored IP value — IPv4-mapped values print as `::ffff:a.b.c.d`, everything
else in an abbreviated IPv6 form. -/
def formatIp (n : Nat) : String :=
  if isIpv4Mapped n then "::ffff:" ++ formatIpv4 (n % 2 ^ 32)
  else "::" ++ String.mk (Nat.toDigits 16 n)

/-- Append one value to a document, the binding's add* methods (§3). -/
def addValue (d : Doc) (f : String) (v : Value) : Doc := d ++ [(f, v)]

/-- Field names in first-occurrence order without repetition. -/
def dedupKeys : List String → List String
  | [] => []
  | f :: fs => f :: (dedupKeys fs).filter (fun g => g != f)

/-- Modelled from the spec: `Document.toDict` — every field maps to the list
of all its values, so even single-valued fields come back wrapped in an
array (§3, §6). -/
def docToDict (d : Doc) : List (String × List Value) :=
  (dedupKeys (d.map (·.1))).map (fun f => (f, fieldValues d f))

/-- Lookup in an association list. -/
def dictLookup (f : String) : List (String × α) → Option α
  | [] => none
  | p :: ps => if p.1 == f then some p.2 else dictLookup f ps

/-- Modelled from the spec: the loosely-typed caller values the binding
receives for `Document.fromDict` (§6, §9 note on loose numeric
validation). -/
inductive JsVal where
  | num (q : Rat)
  | str (s : String)
  | boolJ (b : Bool)
  | arr (xs : List JsVal)

/-- Whether a field type is one of the numeric kinds. -/
def numericFieldType : FieldType → Bool
  | .uintT => true
  | .intT => true
  | .floatT => true
  | _ => false

/-- Loose numeric conversion of a caller number into a field value of the
declared kind; range and integrality are not validated (§9). -/
def convertNum (ft : FieldType) (q : Rat) : Value :=
  match ft with
  | .uintT => .uint q.floor.toNat
  | .intT => .intV q.floor
  | _ => .float q

/-- Modelled from the spec and the observed binding behavior: a scalar
caller value for a field — numbers are accepted for numeric fields without
range or integrality checks, strings for numeric fields are rejected (§9). -/
def convertScalar (ft : FieldType) : JsVal → Except String Value
  | .num q =>
    if numericFieldType ft then .ok (convertNum ft q)
    else .ok (.float q)
  | .str s =>
    if numericFieldType ft then
      .error ("invalid string value for numeric field: " ++ s)
    else .ok (.text s)
  | .boolJ b => .ok (.boolV b)
  | .arr _ => .error "nested array value"

/-- Convert a list of scalar caller values, failing on the first invalid
one. -/
def convertScalars (ft : FieldType) : List JsVal → Except String (List Value)
  | [] => .ok []
  | x :: xs =>
    match convertScalar ft x, convertScalars ft xs with
    | .ok v, .ok vs => .ok (v :: vs)
    | .error m, _ => .error m
    | .ok _, .error m => .error m

/-- Convert a caller value, accepting an array of scalars even for
single-valued fields. -/
def convertJsVal (ft : FieldType) : JsVal → Except String (List Value)
  | .arr xs => convertScalars ft xs
  | v => (convertScalar ft v).map (fun v' => [v'])

/-- Modelled from the spec: `Document.fromDict` — convert every entry of the
caller dictionary against the schema, failing on the first invalid value
(§6, §9). -/
def fromDict (dict : List (String × JsVal)) (sch : Schema) :
    Except String Doc :=
  dict.foldr
    (fun p acc =>
      match lookupField sch p.1 with
      | none => .error ("unknown field: " ++ p.1)
      | some fd =>
        match convertJsVal fd.ftype p.2, acc with
        | .ok vs, .ok d => .ok (vs.map (fun v => (p.1, v)) ++ d)
        | .error m, _ => .error m
        | _, .error m => .error m)
    (.ok [])

/-- Whether an `Except` result is a success. -/
def exceptOk : Except String α → Bool
  | .ok _ => true
  | .error _ => false

/-- A caller value made only of numbers, possibly wrapped in one array. -/
def jsNumLike : JsVal → Bool
  | .num _ => true
  | .arr xs =>
    xs.all (fun x =>
      match x with
      | .num _ => true
      | _ => false)
  | _ => false

/-- Fixture schema of the basic tests: stored `title`, unstored `body`. -/
def schemaTitleBody : Schema :=
  [⟨"title", .text, true, true, false⟩,
   ⟨"body", .text, false, true, false⟩]

/-- First fixture document. -/
def fixtureDoc1 : Doc :=
  [("title", .text "The Old Man and the Sea"),
   ("body", .text "He was an old man who fished alone in a skiff in the Gulf Stream and he had gone eighty-four days now without taking a fish.")]

/-- Second fixture document. -/
def fixtureDoc2 : Doc :=
  [("title", .text "Of Mice and Men"),
   ("body", .text "A few miles south of Soledad, the Salinas River drops in close to the hillside bank and runs deep and green.")]

/-- The in-memory fixture index with both documents committed. -/
def ramIndex : IndexState :=
  commitDocs ⟨schemaTitleBody, []⟩ [fixtureDoc1, fixtureDoc2]

/-- The parsed form of the query string `sea whale` over the default fields
`title` and `body`: one Should clause per default field and term. -/
def seaWhaleQuery : QueryAst :=
  .orQ (.orQ (.termQ "title" "sea") (.termQ "body" "sea"))
    (.orQ (.termQ "title" "whale") (.termQ "body" "whale"))

/-- Schema of the merge test: one stored text field. -/
def schemaText : Schema := [⟨"text", .text, true, true, false⟩]

/-- The document of the merge test. -/
def docA : Doc := [("text", .text "a")]

/-- The merge-test index: two committed batches of 100 documents each. -/
def idxTwoBatches : IndexState :=
  commitDocs (commitDocs ⟨schemaText, []⟩ (List.replicate 100 docA))
    (List.replicate 100 docA)

/-- Schema of the order-by test without a fast field. -/
def schemaOrderTitle : Schema :=
  [⟨"order", .uintT, false, true, false⟩,
   ⟨"title", .text, true, true, false⟩]

/-- The order-by test index with its single document. -/
def idxOrder : IndexState :=
  commitDocs ⟨schemaOrderTitle, []⟩
    [[("order", .uint 0), ("title", .text "Test title")]]

/-- Fixture schema with numeric fields. -/
def schemaNumeric : Schema :=
  [⟨"id", .intT, true, true, true⟩,
   ⟨"rating", .floatT, true, true, true⟩,
   ⟨"is_good", .boolT, true, true, false⟩,
   ⟨"body", .text, true, true, true⟩]

/-- First numeric fixture document. -/
def docNum1 : Doc :=
  [("id", .intV 1), ("rating", .float (mkRat 7 2)), ("is_good", .boolV true),
   ("body", .text "He was an old man who fished alone in a skiff in the Gulf Stream and he had gone eighty-four days now without taking a fish.")]

/-- Second numeric fixture document. -/
def docNum2 : Doc :=
  [("id", .intV 2), ("rating", .float (mkRat 9 2)), ("is_good", .boolV false),
   ("body", .text "A few miles south of Soledad, the Salinas River drops in close to the hillside bank and runs deep and green.")]

/-- The numeric fixture index. -/
def idxNumeric : IndexState :=
  commitDocs ⟨schemaNumeric, []⟩ [docNum1, docNum2]

/-- Ingest an IP literal the way the binding's addIpAddr does: parse and
normalize into the 128-bit space. -/
def ipAddrValue (s : String) : Value :=
  .ip ((parseIpText s).getD 0)

/-- Fixture schema with an IP address field. -/
def schemaIp : Schema :=
  [⟨"id", .intT, true, true, false⟩,
   ⟨"rating", .floatT, true, true, false⟩,
   ⟨"ip_addr", .ipAddrT, true, true, false⟩]

/-- The IP fixture index: addresses 10.0.0.1, 127.0.0.1 and ::1. -/
def idxIp : IndexState :=
  commitDocs ⟨schemaIp, []⟩
    [[("id", .intV 1), ("rating", .float (mkRat 7 2)), ("ip_addr", ipAddrValue "10.0.0.1")],
     [("id", .intV 2), ("rating", .float (mkRat 9 2)), ("ip_addr", ipAddrValue "127.0.0.1")],
     [("id", .intV 3), ("rating", .float (mkRat 9 2)), ("ip_addr", ipAddrValue "::1")]]

/-- The JSON object of the json-bug test. -/
def jsonData : JsonVal :=
  .jobj [("name", .jstr "John Doe"), ("age", .jnum 30),
         ("email", .jstr "john.doe@example.com"),
         ("interests", .jarr [.jstr "reading", .jstr "hiking", .jstr "coding"])]

/-- Schema of the fromDict numeric-validation test. -/
def schemaUSF : Schema :=
  [⟨"unsigned", .uintT, false, true, false⟩,
   ⟨"signed", .intT, false, true, false⟩,
   ⟨"float", .floatT, false, true, false⟩]

/-- Schema of the json-bug test: one stored json field. -/
def schemaJson : Schema := [⟨"data", .jsonT, true, true, false⟩]

/-- The json-bug test index with its single committed document. -/
def idxJson : IndexState :=
  commitDocs ⟨schemaJson, []⟩ [[("data", .json jsonData)]]

/-- C3: `waitMergingThreads()` consumes the index writer: it succeeds on a
not-yet-consumed writer and marks it consumed; afterwards every operation on
the handle fails with the stale-handle error — in particular a second
`waitMergingThreads()` call — and no operation ever succeeds on a consumed
writer again, so the writer never becomes usable after the one-shot drain. -/
theorem waitMergingThreads_consumes_writer :
    (∀ w : WriterModel, w.consumed = false →
      waitMergingThreads w = .ok { w with consumed := true }) ∧
    (∀ (w : WriterModel) (op : WriterOp), w.consumed = true →
      writerStep op w = .error writerUnusableMsg) ∧
    (∀ w w' : WriterModel, waitMergingThreads w = .ok w' → w'.consumed = true) ∧
    (∀ w w' : WriterModel, waitMergingThreads w = .ok w' →
      waitMergingThreads w' = .error writerUnusableMsg) ∧
    (∀ (op : WriterOp) (w w' : WriterModel), writerStep op w = .ok w' →
      w.consumed = false) := by
  refine ⟨?_, ?_, ?_, ?_, ?_⟩
  · intro w h
    simp [waitMergingThreads, writerStep, h]
  · intro w op h
    simp [writerStep, h]
  · intro w w' h
    by_cases hc : w.consumed
    · simp [waitMergingThreads, writerStep, hc] at h
    · simp [waitMergingThreads, writerStep, hc] at h
      rw [← h]
  · intro w w' h
    by_cases hc : w.consumed
    · simp [waitMergingThreads, writerStep, hc] at h
    · simp [waitMergingThreads, writerStep, hc] at h
      simp [waitMergingThreads, writerStep, ← h]
  · intro op w w' h
    by_cases hc : w.consumed
    · simp [writerStep, hc] at h
    · exact Bool.eq_false_iff.mpr hc

/-- Witness for C3 at the fresh writer: the first drain succeeds and
consumes, the second fails. -/
theorem waitMergingThreads_consumes_writer_witness :
    waitMergingThreads freshWriter = .ok { freshWriter with consumed := true } ∧
    writerStep .waitMerging { freshWriter with consumed := true } =
      .error writerUnusableMsg :=
  ⟨waitMergingThreads_consumes_writer.1 freshWriter rfl,
   waitMergingThreads_consumes_writer.2.1 { freshWriter with consumed := true }
     .waitMerging rfl⟩

/-- C4: requesting field-based ordering on a field that is declared in the
schema but not marked fast fails synchronously with the configuration error
naming the field, for every index, query, limit and direction; the message
is exactly the pattern the test-suite matches, which contains the field
name; concretely on the order-by fixture the search returns that error and
not an empty result. -/
theorem orderBy_nonFastField_is_error :
    (∀ (idx : IndexState) (q : QueryAst) (limit : Nat) (f : String)
      (fd : FieldDef) (dir : OrderDir), lookupField idx.sch f = some fd →
      fd.fast = false →
      searchOrdered idx q limit true (some f) dir = .error (fastFieldErrMsg f)) ∧
    fastFieldErrMsg "order" = "Field \"order\" is not configured as fast field" ∧
    strContainsSub "order" (fastFieldErrMsg "order") = true ∧
    searchOrdered idxOrder (.termQ "title" "test") 10 true (some "order") .desc =
      .error "Field \"order\" is not configured as fast field" := by
  refine ⟨?_, rfl, by decide, rfl⟩
  intro idx q limit f fd dir hlook hfast
  simp [searchOrdered, hlook, hfast]

/-- Witness for C4 at the order-by fixture schema. -/
theorem orderBy_nonFastField_is_error_witness :
    searchOrdered idxOrder (.termQ "title" "test") 10 true (some "order")
      .desc = .error (fastFieldErrMsg "order") :=
  orderBy_nonFastField_is_error.1 idxOrder (.termQ "title" "test") 10 "order"
    ⟨"order", .uintT, false, true, false⟩ .desc (by decide) rfl

/-- Per-segment counts sum to the count over the concatenation of the
segments. -/
theorem segCount_flatten (sch : Schema) (q : QueryAst) (segs : List Segment) :
    (segs.map (segCount sch q)).sum =
      (segs.flatten.filter (entryLiveMatches sch q)).length := by
  induction segs with
  | nil => rfl
  | cons s ss ih => simp [segCount, List.filter_append, ih]

/-- The search count is the number of live matching documents over all
segments taken together. -/
theorem searchCount_eq_flatten (idx : IndexState) (q : QueryAst) :
    searchCount idx q =
      (idx.segments.flatten.filter (entryLiveMatches idx.sch q)).length :=
  segCount_flatten idx.sch q idx.segments

/-- Dropping deleted entries does not change the live-match filter. -/
theorem filter_live_of_filter_undeleted (sch : Schema) (q : QueryAst)
    (l : List SegEntry) :
    (l.filter (fun e => !e.deleted)).filter (entryLiveMatches sch q) =
      l.filter (entryLiveMatches sch q) := by
  induction l with
  | nil => rfl
  | cons e es ih =>
    by_cases hd : e.deleted
    · simp [List.filter, entryLiveMatches, hd, ih]
    · simp only [Bool.not_eq_true] at hd
      simp [List.filter, entryLiveMatches, hd, ih]

/-- C2: for every committed document set and query, the count is the number
of live matching documents independent of how they are split across
segments — two indexes whose segments concatenate to the same entry list
report the same count — and a full merge never changes the count; on the
merge-test fixture, 200 documents containing the term `a` committed in two
batches of 100 count as 200 both before the merge (2 segments) and after it
(1 segment, fewer than before). -/
theorem searchCount_segment_invariant :
    (∀ (idx : IndexState) (q : QueryAst), searchCount idx q =
      (idx.segments.flatten.filter (entryLiveMatches idx.sch q)).length) ∧
    (∀ (sch : Schema) (q : QueryAst) (sa sb : List Segment),
      sa.flatten = sb.flatten →
      searchCount ⟨sch, sa⟩ q = searchCount ⟨sch, sb⟩ q) ∧
    (∀ (idx : IndexState) (q : QueryAst),
      searchCount (mergeAllSegments idx) q = searchCount idx q) ∧
    searchCount idxTwoBatches (.termQ "text" "a") = 200 ∧
    idxTwoBatches.segments.length = 2 ∧
    (mergeAllSegments idxTwoBatches).segments.length = 1 ∧
    searchCount (mergeAllSegments idxTwoBatches) (.termQ "text" "a") = 200 := by
  refine ⟨searchCount_eq_flatten, ?_, ?_, by decide, rfl, rfl, by decide⟩
  · intro sch q sa sb h
    rw [searchCount_eq_flatten, searchCount_eq_flatten]
    simp only
    rw [h]
  · intro idx q
    rw [searchCount_eq_flatten, searchCount_eq_flatten]
    simp only [mergeAllSegments, List.flatten]
    rw [List.append_nil, filter_live_of_filter_undeleted]

/-- Witness for C2: the two-batch fixture and its merged form hold the same
entries overall and so report the same count. -/
theorem searchCount_segment_invariant_witness :
    searchCount ⟨schemaText, idxTwoBatches.segments⟩ (.termQ "text" "a") =
      searchCount ⟨schemaText, (mergeAllSegments idxTwoBatches).segments⟩
        (.termQ "text" "a") :=
  searchCount_segment_invariant.2.1 schemaText (.termQ "text" "a")
    idxTwoBatches.segments (mergeAllSegments idxTwoBatches).segments (by rfl)

/-- The stored subset keeps a stored field's values exactly and holds
nothing of an unstored field. -/
theorem fieldValues_storedSub (sch : Schema) (d : Doc) (f : String) :
    fieldValues (storedSub sch d) f =
      if fieldStored sch f then fieldValues d f else [] := by
  induction d with
  | nil => simp [storedSub, fieldValues]
  | cons p d ih =>
    obtain ⟨g, v⟩ := p
    by_cases hgf : g = f
    · subst hgf
      by_cases hst : fieldStored sch g
      · simp [storedSub, fieldValues, hst] at ih ⊢
        exact ih
      · simp only [Bool.not_eq_true] at hst
        simp [storedSub, fieldValues, hst] at ih ⊢
        exact ih
    · by_cases hst : fieldStored sch g
      · simp [storedSub, fieldValues, hst, hgf] at ih ⊢
        exact ih
      · simp only [Bool.not_eq_true] at hst
        simp [storedSub, fieldValues, hst, hgf] at ih ⊢
        exact ih

/-- Membership in the hits of an index committed as one batch pins the
address to segment 0 and a position inside the batch. -/
theorem mem_searchHits_commit (sch : Schema) (ds : List Doc) (q : QueryAst)
    (addr : Nat × Nat) (h : addr ∈ searchHits (commitDocs ⟨sch, []⟩ ds) q) :
    addr.1 = 0 ∧ addr.2 < ds.length := by
  simp only [searchHits, commitDocs, List.nil_append, List.enum, List.enumFrom,
    List.map, List.flatten, List.append_nil] at h
  simp only [segHits, List.mem_filterMap] at h
  obtain ⟨⟨i, e⟩, hmem, heq⟩ := h
  by_cases hlive : entryLiveMatches sch q e
  · simp [hlive] at heq
    have hi : (mkSegment sch ds)[i]? = some e :=
      (List.mk_mem_enum_iff_getElem?).mp hmem
    have hlen : i < (mkSegment sch ds).length := by
      by_contra hge
      rw [List.getElem?_eq_none (Nat.le_of_not_lt hge)] at hi
      exact Option.noConfusion hi
    rw [← heq]
    refine ⟨rfl, ?_⟩
    simpa [mkSegment] using hlen
  · simp [hlive] at heq

/-- C1: for every schema and committed batch, every doc address returned by
a search resolves through `doc()` to exactly the stored-field subset of the
document that was ingested at that position: stored fields round-trip with
their exact values and unstored fields are absent; concretely, on the 2-doc
fixture the query `sea whale` returns one address whose document holds the
stored title `The Old Man and the Sea` and no `body` entry. -/
theorem doc_stored_roundtrip :
    (∀ (sch : Schema) (ds : List Doc) (q : QueryAst) (addr : Nat × Nat),
      addr ∈ searchHits (commitDocs ⟨sch, []⟩ ds) q →
      ∃ d, ds.get? addr.2 = some d ∧
        searcherDoc (commitDocs ⟨sch, []⟩ ds) addr = some (storedSub sch d) ∧
        (∀ f, fieldStored sch f = true →
          fieldValues (storedSub sch d) f = fieldValues d f) ∧
        (∀ f, fieldStored sch f = false →
          fieldValues (storedSub sch d) f = [])) ∧
    searchHits ramIndex seaWhaleQuery = [(0, 0)] ∧
    searcherDoc ramIndex (0, 0) =
      some [("title", Value.text "The Old Man and the Sea")] ∧
    dictLookup "title" (docToDict ((searcherDoc ramIndex (0, 0)).getD [])) =
      some [Value.text "The Old Man and the Sea"] ∧
    dictLookup "body" (docToDict ((searcherDoc ramIndex (0, 0)).getD [])) =
      none := by
  refine ⟨?_, rfl, rfl, rfl, rfl⟩
  intro sch ds q addr h
  obtain ⟨h0, hlt⟩ := mem_searchHits_commit sch ds q addr h
  refine ⟨ds.get ⟨addr.2, hlt⟩, List.get?_eq_get hlt, ?_, ?_, ?_⟩
  · obtain ⟨a1, a2⟩ := addr
    simp only at h0 hlt
    subst h0
    simp only [searcherDoc, commitDocs, List.nil_append, List.get?,
      Option.some_bind]
    rw [List.get?_eq_getElem?, mkSegment, List.getElem?_map,
      ← List.get?_eq_getElem?, List.get?_eq_get hlt]
    rfl
  · intro f hf
    rw [fieldValues_storedSub, hf]
    rfl
  · intro f hf
    rw [fieldValues_storedSub, hf]
    rfl

/-- Witness for C1 at the 2-doc fixture and the `sea whale` query. -/
theorem doc_stored_roundtrip_witness :
    ∃ d, [fixtureDoc1, fixtureDoc2].get? (0, 0).2 = some d ∧
      searcherDoc (commitDocs ⟨schemaTitleBody, []⟩ [fixtureDoc1, fixtureDoc2])
        (0, 0) = some (storedSub schemaTitleBody d) ∧
      (∀ f, fieldStored schemaTitleBody f = true →
        fieldValues (storedSub schemaTitleBody d) f = fieldValues d f) ∧
      (∀ f, fieldStored schemaTitleBody f = false →
        fieldValues (storedSub schemaTitleBody d) f = []) :=
  doc_stored_roundtrip.1 schemaTitleBody [fixtureDoc1, fixtureDoc2]
    seaWhaleQuery (0, 0) (by decide)

/-- The complex lenient-parse test query `body:'hello' AND id:<3.5 OR
rating:'hi'`, built without literal quote characters. -/
def complexQueryStr : String :=
  "body:" ++ String.mk [quoteCh] ++ "hello" ++ String.mk [quoteCh] ++
    " AND id:<3.5 OR rating:" ++ String.mk [quoteCh] ++ "hi" ++
    String.mk [quoteCh]

/-- Successes and failures of a clause list partition it. -/
theorem okClauses_errClauses_length (rs : List (Except String ParsedClause)) :
    (okClauses rs).length + (errClauses rs).length = rs.length := by
  induction rs with
  | nil => rfl
  | cons r rs ih =>
    cases r with
    | ok c => simp [okClauses, errClauses] at ih ⊢; omega
    | error m => simp [okClauses, errClauses] at ih ⊢; omega

/-- The error list holds exactly one entry per failing result. -/
theorem errClauses_length_eq_failures (rs : List (Except String ParsedClause)) :
    (errClauses rs).length = (rs.filter (fun r => !(exceptOk r))).length := by
  induction rs with
  | nil => rfl
  | cons r rs ih =>
    cases r with
    | ok pc => simpa [errClauses, List.filter_cons, exceptOk] using ih
    | error m => simpa [errClauses, List.filter_cons, exceptOk] using ih

/-- Every clause that parses appears in the returned query tree. -/
theorem ok_clause_mem (g : List Char → Except String ParsedClause)
    (l : List (List Char)) (c : List Char) (pc : ParsedClause)
    (hc : c ∈ l) (hg : g c = .ok pc) : pc ∈ okClauses (l.map g) := by
  simp only [okClauses, List.mem_filterMap]
  exact ⟨.ok pc, List.mem_map.mpr ⟨c, hc, hg⟩, rfl⟩

/-- C5: lenient parsing is a total function returning a pair of partial
query tree and error list that partition the clauses — one error entry per
independently failing clause, every parsed clause kept in the tree;
concretely, `bod:men` against the numeric-fields schema yields an empty
query and exactly one error naming `bod`, and the mixed query
`body:'hello' AND id:<3.5 OR rating:'hi'` yields two errors while the valid
`body` clause appears in the returned tree. -/
theorem parseQueryLenient_accumulates_errors :
    (∀ (sch : Schema) (s : String),
      (parseQueryLenient sch s).1.length + (parseQueryLenient sch s).2.length =
        (clauseTokens s).length) ∧
    (∀ (sch : Schema) (s : String),
      (parseQueryLenient sch s).2.length =
        ((clauseTokens s).filter
          (fun c => !(exceptOk (parseClause sch c)))).length) ∧
    (∀ (sch : Schema) (s : String) (c : List Char) (pc : ParsedClause),
      c ∈ clauseTokens s → parseClause sch c = .ok pc →
      pc ∈ (parseQueryLenient sch s).1) ∧
    parseQueryLenient schemaNumeric "bod:men" = ([], [unknownFieldMsg "bod"]) ∧
    (parseQueryLenient schemaNumeric "bod:men").2.length = 1 ∧
    strContainsSub "bod" (unknownFieldMsg "bod") = true ∧
    (parseQueryLenient schemaNumeric complexQueryStr).2.length = 2 ∧
    ParsedClause.textTerm "body" "hello" ∈
      (parseQueryLenient schemaNumeric complexQueryStr).1 := by
  refine ⟨?_, ?_, ?_, rfl, rfl, by decide, by decide, by decide⟩
  · intro sch s
    exact okClauses_errClauses_length ((clauseTokens s).map (parseClause sch)) |>.trans
      (List.length_map _ _)
  · intro sch s
    rw [parseQueryLenient, errClauses_length_eq_failures, List.filter_map,
      List.length_map]
    rfl
  · intro sch s c pc hc hg
    exact ok_clause_mem (parseClause sch) (clauseTokens s) c pc hc hg

/-- Witness for C5: the valid clause of the mixed query parses and appears
in the returned tree. -/
theorem parseQueryLenient_accumulates_errors_witness :
    ParsedClause.textTerm "body" "hello" ∈
      (parseQueryLenient schemaNumeric complexQueryStr).1 :=
  parseQueryLenient_accumulates_errors.2.2.1 schemaNumeric complexQueryStr
    ("body:".data ++ [quoteCh] ++ "hello".data ++ [quoteCh])
    (.textTerm "body" "hello") (by decide) rfl

/-- C6: a document whose field value sits exactly on the lower bound of a
range query matches iff the lower side is inclusive (given the upper bound
check for that value), and symmetrically for the upper bound; concretely,
over the numeric fixture with ids 1 and 2 the inclusive-inclusive range
[1, 2] returns both documents, and over ratings 3.5 and 4.5 the
inclusive-exclusive range [3, 4) returns exactly the document whose stored
rating is 3.5. -/
theorem rangeQuery_boundary_inclusive :
    (∀ (sch : Schema) (f : String) (lo hi : Rat) (li ui : Bool) (d : Doc),
      fieldIndexed sch f = true → fieldValues d f = [Value.float lo] →
      matchesQ sch (.rangeNumQ f lo hi li ui) d = (li && upperOk hi ui lo)) ∧
    (∀ (sch : Schema) (f : String) (lo hi : Rat) (li ui : Bool) (d : Doc),
      fieldIndexed sch f = true → fieldValues d f = [Value.float hi] →
      matchesQ sch (.rangeNumQ f lo hi li ui) d = (lowerOk lo li hi && ui)) ∧
    searchHits idxNumeric (.rangeNumQ "id" 1 2 true true) = [(0, 0), (0, 1)] ∧
    searchHits idxNumeric (.rangeNumQ "rating" 3 4 true false) = [(0, 0)] ∧
    dictLookup "rating" (docToDict ((searcherDoc idxNumeric (0, 0)).getD []))
      = some [Value.float (mkRat 7 2)] := by
  refine ⟨?_, ?_, by decide, by decide, rfl⟩
  · intro sch f lo hi li ui d hidx hvals
    simp only [matchesQ, hidx, hvals, List.any_cons, List.any_nil, numValue,
      Bool.true_and, Bool.or_false]
    cases li <;> simp [lowerOk]
  · intro sch f lo hi li ui d hidx hvals
    simp only [matchesQ, hidx, hvals, List.any_cons, List.any_nil, numValue,
      Bool.true_and, Bool.or_false]
    cases ui <;> simp [upperOk, Bool.and_comm]

/-- Witness for C6: a document holding exactly the lower-bound rating 3.5
matches the range [3.5, 4) according to the lower side's inclusiveness. -/
theorem rangeQuery_boundary_inclusive_witness :
    matchesQ schemaNumeric (.rangeNumQ "rating" (mkRat 7 2) 4 true false)
      [("rating", Value.float (mkRat 7 2))] = (true && upperOk 4 false (mkRat 7 2)) :=
  rangeQuery_boundary_inclusive.1 schemaNumeric "rating" (mkRat 7 2) 4 true false
    [("rating", Value.float (mkRat 7 2))] rfl rfl

/-- Encoding distributes over appending segment lists. -/
theorem facetEncodeL_append (as t : List (List Char)) :
    facetEncodeL (as ++ t) = facetEncodeL as ++ facetEncodeL t := by
  induction as with
  | nil => rfl
  | cons s as' ih =>
    show s ++ facetSep :: facetEncodeL (as' ++ t) = _
    rw [ih]
    simp [facetEncodeL]

/-- The encoded term is empty exactly for the root facet. -/
theorem facetEncodeL_eq_nil_iff (as : List (List Char)) :
    facetEncodeL as = [] ↔ as = [] := by
  cases as with
  | nil => simp [facetEncodeL]
  | cons s as' =>
    show s ++ facetSep :: facetEncodeL as' = [] ↔ _
    simp

/-- One encoded segment matches under `startsWithL` exactly when the
segments are equal, provided neither contains the separator. -/
theorem startsWith_seg (x y : List Char) :
    ∀ (s s' : List Char), facetSep ∉ s → facetSep ∉ s' →
    (startsWithL (s ++ facetSep :: x) (s' ++ facetSep :: y) = true ↔
      (s = s' ∧ startsWithL x y = true)) := by
  intro s
  induction s with
  | nil =>
    intro s' _ hs'
    cases s' with
    | nil => simp [startsWithL]
    | cons c s'' =>
      have hc : facetSep ≠ c := fun h => hs' (h ▸ List.mem_cons_self c s'')
      simp [startsWithL, beq_eq_false_iff_ne.mpr hc]
  | cons a ss ih =>
    intro s' hs hs'
    have hna : facetSep ≠ a := fun h => hs (h ▸ List.mem_cons_self a ss)
    have hnss : facetSep ∉ ss := fun h => hs (List.mem_cons_of_mem a h)
    cases s' with
    | nil =>
      have : (a == facetSep) = false := beq_eq_false_iff_ne.mpr (Ne.symm hna)
      simp [startsWithL, this]
    | cons c s'' =>
      have hnc : facetSep ∉ s'' := fun h => hs' (List.mem_cons_of_mem c h)
      simp [startsWithL, Bool.and_eq_true, beq_iff_eq, ih s'' hnss hnc,
        and_assoc]

/-- The encoded term of `as` is an initial run of the encoded term of `bs`
exactly when `as` is an initial run of the segment list `bs`, for
well-formed segments. -/
theorem startsWith_encode_iff :
    ∀ (as bs : List (List Char)), (∀ s ∈ as, facetSep ∉ s) →
    (∀ s ∈ bs, facetSep ∉ s) →
    (startsWithL (facetEncodeL as) (facetEncodeL bs) = true ↔
      ∃ t, bs = as ++ t) := by
  intro as
  induction as with
  | nil =>
    intro bs _ _
    simp [facetEncodeL, startsWithL]
  | cons s as' ih =>
    intro bs ha hb
    cases bs with
    | nil =>
      constructor
      · intro h
        exfalso
        cases s with
        | nil => simp [facetEncodeL, startsWithL] at h
        | cons c cs => simp [facetEncodeL, startsWithL] at h
      · rintro ⟨t, ht⟩
        exact absurd ht (by simp)
    | cons s' bs' =>
      have hs : facetSep ∉ s := ha s (List.mem_cons_self _ _)
      have hs' : facetSep ∉ s' := hb s' (List.mem_cons_self _ _)
      have ha' : ∀ u ∈ as', facetSep ∉ u := fun u hu => ha u (List.mem_cons_of_mem _ hu)
      have hb' : ∀ u ∈ bs', facetSep ∉ u := fun u hu => hb u (List.mem_cons_of_mem _ hu)
      rw [show facetEncodeL (s :: as') = s ++ facetSep :: facetEncodeL as' from rfl,
        show facetEncodeL (s' :: bs') = s' ++ facetSep :: facetEncodeL bs' from rfl,
        startsWith_seg _ _ s s' hs hs']
      constructor
      · rintro ⟨hss', hsw⟩
        subst hss'
        obtain ⟨t, ht⟩ := (ih bs' ha' hb').mp hsw
        exact ⟨t, by rw [ht]; rfl⟩
      · rintro ⟨t, ht⟩
        have hcons : s' :: bs' = s :: (as' ++ t) := by simpa using ht
        injection hcons with h1 h2
        subst h1
        exact ⟨rfl, (ih bs' ha' hb').mpr ⟨t, h2⟩⟩

/-- C7: for well-formed facets, `isPrefixOf` — decided on the encoded terms
as proper-prefix containment — holds exactly when the first facet's path is
a strict ancestor of the second facet's path; concretely
`/electronics` is a prefix of `/electronics/computers`, not conversely, and
the root facet is a prefix of every non-root facet. -/
theorem facet_isPrefixOf_iff_ancestor :
    (∀ a b : Facet, facetWellFormed a → facetWellFormed b →
      (facetIsPrefixOf a b = true ↔ facetAncestor a b)) ∧
    facetIsPrefixOf (facetFromString "/electronics")
      (facetFromString "/electronics/computers") = true ∧
    facetIsPrefixOf (facetFromString "/electronics/computers")
      (facetFromString "/electronics") = false ∧
    (∀ b : Facet, b.segs ≠ [] → facetIsPrefixOf facetRoot b = true) := by
  refine ⟨?_, by decide, by decide, ?_⟩
  · intro a b ha hb
    simp only [facetIsPrefixOf, Bool.and_eq_true, decide_eq_true_eq,
      facetEncode]
    constructor
    · rintro ⟨hsw, hlen⟩
      obtain ⟨t, ht⟩ := (startsWith_encode_iff a.segs b.segs ha hb).mp hsw
      refine ⟨t, ?_, ht⟩
      rintro rfl
      rw [ht, List.append_nil] at hlen
      exact lt_irrefl _ hlen
    · rintro ⟨t, htne, ht⟩
      refine ⟨(startsWith_encode_iff a.segs b.segs ha hb).mpr ⟨t, ht⟩, ?_⟩
      rw [ht, facetEncodeL_append, List.length_append]
      have hne : facetEncodeL t ≠ [] :=
        fun h => htne ((facetEncodeL_eq_nil_iff t).mp h)
      have hpos : 0 < (facetEncodeL t).length := List.length_pos.mpr hne
      omega
  · intro b hb
    obtain ⟨segs⟩ := b
    cases segs with
    | nil => exact absurd rfl hb
    | cons s rest =>
      simp only [facetIsPrefixOf, facetRoot, facetEncode]
      show (startsWithL (facetEncodeL []) _ && _) = true
      simp only [facetEncodeL, List.foldr_nil, List.foldr_cons, startsWithL,
        Bool.true_and, decide_eq_true_eq, List.length_nil, List.length_append,
        List.length_cons]
      omega

/-- Witness for C7 at the concrete electronics facets. -/
theorem facet_isPrefixOf_iff_ancestor_witness :
    facetIsPrefixOf (facetFromString "/electronics")
        (facetFromString "/electronics/computers") = true ↔
      facetAncestor (facetFromString "/electronics")
        (facetFromString "/electronics/computers") :=
  facet_isPrefixOf_iff_ancestor.1 (facetFromString "/electronics")
    (facetFromString "/electronics/computers")
    (by unfold facetWellFormed; decide) (by unfold facetWellFormed; decide)

/-- Success of an `Except` is existence of an `ok` payload. -/
theorem exceptOk_iff (e : Except String α) :
    exceptOk e = true ↔ ∃ x, e = .ok x := by
  cases e <;> simp [exceptOk]

/-- Converting a list of numbers never fails, whatever the numeric field
type. -/
theorem convertScalars_nums_ok (ft : FieldType) (xs : List JsVal)
    (h : xs.all (fun x =>
      match x with
      | .num _ => true
      | _ => false) = true) :
    exceptOk (convertScalars ft xs) = true := by
  induction xs with
  | nil => rfl
  | cons x xs' ih =>
    rw [List.all_cons, Bool.and_eq_true] at h
    obtain ⟨hx, hxs⟩ := h
    obtain ⟨vs, hvs⟩ := (exceptOk_iff _).mp (ih hxs)
    cases x with
    | num q =>
      cases hft : numericFieldType ft <;>
        simp [convertScalars, convertScalar, hft, hvs, exceptOk]
    | str s => simp at hx
    | boolJ b => simp at hx
    | arr ys => simp at hx

/-- C8: numeric validation in `Document.fromDict` is loose — for the
unsigned/signed/float schema, any numbers are accepted (negative for the
unsigned field, fractional for the signed integer field, and arrays of
numbers for single-valued fields) and only a string value for a numeric
field is rejected; the concrete dictionaries of the validation test
evaluate accordingly. -/
theorem fromDict_loose_numeric_validation :
    (∀ ft : FieldType, numericFieldType ft = true → ∀ q : Rat,
      convertScalar ft (.num q) = .ok (convertNum ft q)) ∧
    (∀ ft : FieldType, numericFieldType ft = true → ∀ s : String,
      convertScalar ft (.str s) =
        .error ("invalid string value for numeric field: " ++ s)) ∧
    (∀ v : JsVal, jsNumLike v = true → ∀ ft : FieldType,
      exceptOk (convertJsVal ft v) = true) ∧
    (∀ q1 q2 q3 : Rat,
      exceptOk (fromDict [("unsigned", .num q1), ("signed", .num q2),
        ("float", .num q3)] schemaUSF) = true) ∧
    exceptOk (fromDict [("unsigned", .num (-50)), ("signed", .num (-5)),
      ("float", .num (mkRat 2 5))] schemaUSF) = true ∧
    exceptOk (fromDict [("unsigned", .num 1000),
      ("signed", .num (mkRat 252 5)), ("float", .num (mkRat 2 5))]
      schemaUSF) = true ∧
    (∀ s : String,
      exceptOk (fromDict [("unsigned", .num 1000), ("signed", .num (-5)),
        ("float", .str s)] schemaUSF) = false) ∧
    exceptOk (fromDict [("unsigned", .arr [.num 1000, .num (-50)]),
      ("signed", .num (-5)), ("float", .num (mkRat 2 5))] schemaUSF) = true ∧
    exceptOk (fromDict [("unsigned", .num 1000),
      ("signed", .arr [.num (-5), .num 150, .num (mkRat (-157) 50)]),
      ("float", .num (mkRat 2 5))] schemaUSF) = true := by
  refine ⟨?_, ?_, ?_, fun q1 q2 q3 => rfl, rfl, rfl, fun s => rfl, rfl, rfl⟩
  · intro ft h q
    simp [convertScalar, h]
  · intro ft h s
    simp [convertScalar, h]
  · intro v hv ft
    cases v with
    | num q =>
      cases hft : numericFieldType ft <;>
        simp [convertJsVal, convertScalar, hft, exceptOk, Except.map]
    | str s => simp [jsNumLike] at hv
    | boolJ b => simp [jsNumLike] at hv
    | arr xs => exact convertScalars_nums_ok ft xs hv

/-- Witness for C8: an array holding a positive and a negative number is
accepted for the unsigned field. -/
theorem fromDict_loose_numeric_validation_witness :
    exceptOk (convertJsVal .uintT (.arr [.num 1000, .num (-50)])) = true :=
  fromDict_loose_numeric_validation.2.2.1 (.arr [.num 1000, .num (-50)])
    (by decide) .uintT

/-- A parsed dotted-quad component is at most 255. -/
theorem parseDecByte_le (l : List Char) (n : Nat)
    (h : parseDecByte l = some n) : n ≤ 255 := by
  unfold parseDecByte at h
  cases h1 : parseNatDigits l with
  | none => rw [h1] at h; exact absurd h (by simp)
  | some m =>
    rw [h1] at h
    by_cases hm : m ≤ 255
    · simp [hm] at h
      omega
    · simp [hm] at h

/-- Every successfully parsed dotted-quad IPv4 value lands inside the
IPv6-mapped window. -/
theorem parseIpv4_in_mapped_window (l : List Char) (n : Nat)
    (h : parseIpv4 l = some n) :
    0xffff * 2 ^ 32 ≤ n ∧ n < 0x10000 * 2 ^ 32 := by
  unfold parseIpv4 at h
  split at h
  · split at h
    · rename_i a' b' c' d' ha hb hc hd
      have ha255 := parseDecByte_le _ _ ha
      have hb255 := parseDecByte_le _ _ hb
      have hc255 := parseDecByte_le _ _ hc
      have hd255 := parseDecByte_le _ _ hd
      simp only [Option.some.injEq] at h
      rw [← h]
      unfold ipv4Mapped
      constructor
      · omega
      · omega
    · exact absurd h (by simp)
  · exact absurd h (by simp)

/-- C9: an IPv4 address ingested as a dotted quad is normalized into the
IPv6-mapped 128-bit space and is returned by `doc()` in the `::ffff:` form
rather than the original dotted-quad text — `10.0.0.1` comes back as
`::ffff:10.0.0.1` — every dotted-quad parse lands inside the mapped window,
and a range query spanning all of IPv4 does not match a document holding
the IPv6 address `::1`: over the 3-address fixture that range counts only
the two IPv4 documents. -/
theorem ipAddr_normalized_ipv6_mapped :
    formatIp ((parseIpText "10.0.0.1").getD 0) = "::ffff:10.0.0.1" ∧
    "::ffff:10.0.0.1" ≠ "10.0.0.1" ∧
    parseIpText "::1" = some 1 ∧
    (∀ (l : List Char) (n : Nat), parseIpv4 l = some n →
      0xffff * 2 ^ 32 ≤ n ∧ n < 0x10000 * 2 ^ 32) ∧
    (∀ n : Nat, n < 0xffff * 2 ^ 32 →
      lowerOkNat ((parseIpText "0.0.0.0").getD 0) true n = false) ∧
    searchCount idxIp (.rangeIpQ "ip_addr" ((parseIpText "0.0.0.0").getD 0)
      ((parseIpText "255.255.255.255").getD 0) true true) = 2 ∧
    matchesQ schemaIp (.rangeIpQ "ip_addr" ((parseIpText "0.0.0.0").getD 0)
      ((parseIpText "255.255.255.255").getD 0) true true)
      [("ip_addr", ipAddrValue "::1")] = false := by
  refine ⟨by decide, by decide, by decide, parseIpv4_in_mapped_window, ?_,
    by decide, by decide⟩
  intro n hn
  have hlo : (parseIpText "0.0.0.0").getD 0 = 0xffff * 2 ^ 32 := by decide
  rw [hlo]
  simp only [lowerOkNat, if_true, decide_eq_false_iff_not]
  omega

/-- Witness for C9: the parse of 10.0.0.1 lies inside the IPv6-mapped
window. -/
theorem ipAddr_normalized_ipv6_mapped_witness :
    0xffff * 2 ^ 32 ≤ ipv4Mapped (10 * 2 ^ 24 + 1) ∧
      ipv4Mapped (10 * 2 ^ 24 + 1) < 0x10000 * 2 ^ 32 :=
  ipAddr_normalized_ipv6_mapped.2.2.2.1 "10.0.0.1".data
    (ipv4Mapped (10 * 2 ^ 24 + 1)) (by decide)

/-- Lookup over a key-indexed map of a key list. -/
theorem dictLookup_map_self (h : String → List Value) (xs : List String)
    (f : String) :
    dictLookup f (xs.map (fun g => (g, h g))) =
      if f ∈ xs then some (h f) else none := by
  induction xs with
  | nil => simp [dictLookup]
  | cons g gs ih =>
    by_cases hgf : g = f
    · subst hgf
      simp [dictLookup, ih]
    · have : (g == f) = false := beq_eq_false_iff_ne.mpr hgf
      simp [dictLookup, this, ih, Ne.symm hgf]

/-- Deduplication preserves membership. -/
theorem mem_dedupKeys (ks : List String) (f : String) :
    f ∈ dedupKeys ks ↔ f ∈ ks := by
  induction ks with
  | nil => simp [dedupKeys]
  | cons k ks' ih =>
    by_cases hfk : f = k
    · subst hfk
      simp [dedupKeys]
    · simp [dedupKeys, hfk, List.mem_filter, ih, bne_iff_ne]

/-- A field with at least one value appears among the document's keys. -/
theorem fieldValues_singleton_mem (d : Doc) (f : String) (v : Value)
    (h : fieldValues d f = [v]) : f ∈ d.map (fun p => p.1) := by
  induction d with
  | nil => simp [fieldValues] at h
  | cons p d' ih =>
    by_cases hpf : p.1 = f
    · simp [hpf]
    · have hb : (p.1 == f) = false := beq_eq_false_iff_ne.mpr hpf
      rw [show fieldValues (p :: d') f = fieldValues d' f from by
        simp [fieldValues, List.filterMap_cons, hb, hpf]] at h
      simp only [List.map_cons, List.mem_cons]
      right
      exact ih h

/-- Field lookup in the dictionary form returns all the field's values. -/
theorem dictLookup_docToDict (d : Doc) (f : String)
    (h : f ∈ d.map (fun p => p.1)) :
    dictLookup f (docToDict d) = some (fieldValues d f) := by
  rw [docToDict, dictLookup_map_self]
  rw [if_pos ((mem_dedupKeys _ f).mpr h)]

/-- C10: `Document.toDict` and the stored-field map returned by
`searcher.doc()` wrap every field's values in an array even for
single-valued fields: a field with exactly one added value `v` maps to
`[v]`; concretely a single text, integer, float, boolean value each come
back as one-element arrays, and the json document of the json-bug test
comes back as a one-element array holding the object. -/
theorem toDict_wraps_values_in_arrays :
    (∀ (d : Doc) (f : String) (v : Value), fieldValues d f = [v] →
      dictLookup f (docToDict d) = some [v]) ∧
    docToDict (addValue (addValue (addValue (addValue []
        "title" (.text "Test Document")) "id" (.intV 123))
        "rating" (.float (mkRat 9 2))) "is_good" (.boolV true)) =
      [("title", [Value.text "Test Document"]), ("id", [Value.intV 123]),
       ("rating", [Value.float (mkRat 9 2)]), ("is_good", [Value.boolV true])] ∧
    dictLookup "data" (docToDict ((searcherDoc idxJson (0, 0)).getD [])) =
      some [Value.json jsonData] := by
  refine ⟨?_, rfl, rfl⟩
  intro d f v h
  rw [dictLookup_docToDict d f (fieldValues_singleton_mem d f v h), h]

/-- Witness for C10: the single added title value comes back wrapped in a
one-element array. -/
theorem toDict_wraps_values_in_arrays_witness :
    dictLookup "title"
        (docToDict [("title", Value.text "Test Document")]) =
      some [Value.text "Test Document"] :=
  toDict_wraps_values_in_arrays.1 [("title", Value.text "Test Document")]
    "title" (Value.text "Test Document") rfl

end TantivyModel
